import Mathlib

/-!
# Request telemetry of `cmd/main/main.go`

A shallow embedding of the request counters of the web server: the package-level
variables, the `POST /data` handler, the two branches of the `select` loop of
`trackMetrics`, and one iteration of the refresh loop of `startTUI`.

* Go `uint64` values are natural numbers below `2 ^ 64`; every `uint64` operation
  reduces modulo `2 ^ 64` explicitly.
* Go `float64` values that arise here are conversions of `uint64` values, hence
  integers; they are represented by the natural number they denote.
-/

namespace FiberWebserver

/-! ## Machine arithmetic -/

/-- Result of `atomic.AddUint64(&x, d)` on a `uint64` holding `a`. -/
def addUint64 (a d : Nat) : Nat := (a + d) % 2 ^ 64

/-- Go `a - b` on `uint64` operands (wraps around below zero). -/
def subUint64 (a b : Nat) : Nat := (a + 2 ^ 64 - b) % 2 ^ 64

/-- Binary exponent by which a value must be scaled down to fit the 53-bit
significand of a `float64`; `fuel` bounds the number of halvings. -/
def float64Exp : Nat → Nat → Nat
  | 0, _ => 0
  | fuel + 1, n => if n < 2 ^ 53 then 0 else float64Exp fuel (n / 2) + 1

/-- Go conversion `float64(n)` of a `uint64`: the value is rounded to a 53-bit
significand, to nearest, ties to even. The result is the integer denoted by the
resulting float. -/
def float64OfUint64 (n : Nat) : Nat :=
  let e := float64Exp 64 n
  let q := n / 2 ^ e
  let r := n % 2 ^ e
  if 2 ^ e < 2 * r ∨ (2 * r = 2 ^ e ∧ q % 2 = 1) then (q + 1) * 2 ^ e else q * 2 ^ e

/-! ## State -/

/-- The package-level variables of `main.go` (lines 17-45) and the text shown by
the dashboard. `requestCounter` is the `uint64` count that `Inc` advances inside
the exporter counter; the two gauges are represented by the value last set;
`tuiText` is `none` while the view shows `Loading...`, and otherwise holds the three
numbers formatted into the text. -/
structure State where
  totalRequests : Nat
  requestsPerSecond : Nat
  requestsPerMinute : Nat
  lastRequests : Nat
  lastMinuteRequests : Nat
  requestCounter : Nat
  requestsPerSecondGauge : Nat
  requestsPerMinuteGauge : Nat
  tuiText : Option (Nat × Nat × Nat)
deriving DecidableEq, Repr

/-- State at process start: every variable holds its zero value. -/
def init : State :=
  { totalRequests := 0, requestsPerSecond := 0, requestsPerMinute := 0,
    lastRequests := 0, lastMinuteRequests := 0, requestCounter := 0,
    requestsPerSecondGauge := 0, requestsPerMinuteGauge := 0, tuiText := none }

/-- The `uint64` variables hold values in range. -/
def State.InRange (s : State) : Prop :=
  s.totalRequests < 2 ^ 64 ∧ s.lastRequests < 2 ^ 64 ∧ s.lastMinuteRequests < 2 ^ 64

instance (s : State) : Decidable s.InRange := by
  unfold State.InRange; infer_instance

/-- The zero state with `totalRequests`, `lastRequests` and `lastMinuteRequests`
replaced by the given values. -/
def stateOf (total last acc : Nat) : State :=
  { init with totalRequests := total, lastRequests := last, lastMinuteRequests := acc }

/-! ## The `POST /data` handler (lines 61-82) -/

/-- The anonymous struct decoded from the request body; `age` is a Go `int`. -/
structure Input where
  username : String
  age : Int
deriving DecidableEq, Repr

/-- A JSON text after scanning. A number literal made of an optional minus sign
and digits only is `int`; a number literal with a fraction or an exponent is
`real`. -/
inductive JSON where
  | null
  | bool (b : Bool)
  | int (n : Int)
  | real (literal : String)
  | str (s : String)
  | arr (items : List JSON)
  | obj (members : List (String × JSON))

/-- The parts of the standard library `encoding/json` that are taken as given:
`scan` turns the bytes of a body into the JSON text they spell, or fails when the
bytes are not JSON; `equalFold` is the case-insensitive comparison of an object
key with a field name. -/
structure JSONLib where
  scan : List UInt8 → Option JSON
  equalFold : String → String → Bool

/-- The two fields of `Input`, with the JSON names `username` and `age`. -/
inductive Field where
  | username
  | age
deriving DecidableEq, Repr

/-- The field an object key is stored into: an exact match of the JSON name, or
else a case-insensitive one; other keys are ignored. -/
def fieldOf (lib : JSONLib) (key : String) : Option Field :=
  if key = "username" ∨ lib.equalFold key "username" = true then some Field.username
  else if key = "age" ∨ lib.equalFold key "age" = true then some Field.age
  else none

/-- Decode one object member into the struct. The second component records that
some member did not fit its field: `json.Unmarshal` then skips the member, goes
on, and reports an error at the end. A `null` leaves the field as it is, a
string fits `username`, an integer literal within the 64-bit `int` range fits
`age`. -/
def decodeMember (lib : JSONLib) (acc : Input × Bool) (m : String × JSON) : Input × Bool :=
  match fieldOf lib m.1, m.2 with
  | none, _ => acc
  | some _, JSON.null => acc
  | some Field.username, JSON.str v => ({ acc.1 with username := v }, acc.2)
  | some Field.age, JSON.int n =>
      if -(2 ^ 63) ≤ n ∧ n < 2 ^ 63 then ({ acc.1 with age := n }, acc.2) else (acc.1, true)
  | some _, _ => (acc.1, true)

/-- Decode a JSON text into the zero-valued struct: `null` changes nothing, an
object is decoded member by member, every other text does not fit a struct. -/
def decodeInput (lib : JSONLib) : JSON → Option Input
  | JSON.null => some { username := "", age := 0 }
  | JSON.obj members =>
      let r := members.foldl (decodeMember lib) ({ username := "", age := 0 }, false)
      if r.2 then none else some r.1
  | _ => none

/-- Line 66: `json.Unmarshal(c.Body(), &input)`; `none` stands for a non-nil
error, `some input` for the decoded struct. -/
def unmarshal (lib : JSONLib) (body : List UInt8) : Option Input :=
  match lib.scan body with
  | none => none
  | some v => decodeInput lib v

/-- Values of the JSON maps sent back by the handler. -/
inductive JSONValue where
  | str (s : String)
  | num (n : Int)
deriving DecidableEq, Repr

/-- Status code and JSON map of a response. -/
structure Response where
  status : Nat
  body : List (String × JSONValue)
deriving DecidableEq, Repr

/-- Line 73: `atomic.AddUint64(&totalRequests, 1)`. -/
def incTotal (s : State) : State :=
  { s with totalRequests := addUint64 s.totalRequests 1 }

/-- Line 74: `atomic.AddUint64(&lastMinuteRequests, 1)`. -/
def incMinute (s : State) : State :=
  { s with lastMinuteRequests := addUint64 s.lastMinuteRequests 1 }

/-- Line 75: `requestCounter.Inc()`, an atomic add of 1 to the `uint64` count of
the exporter counter. -/
def incCounter (s : State) : State :=
  { s with requestCounter := addUint64 s.requestCounter 1 }

/-- Lines 72-81: the path taken when `json.Unmarshal` returned no error. -/
def acceptRequest (input : Input) (s : State) : State × Response :=
  (incCounter (incMinute (incTotal s)),
    { status := 200,
      body := [("message", JSONValue.str "Data received"),
               ("user", JSONValue.str input.username),
               ("age", JSONValue.num input.age)] })

/-- Lines 66-70: the path taken when `json.Unmarshal` returned an error. -/
def rejectRequest (s : State) : State × Response :=
  (s, { status := 400, body := [("error", JSONValue.str "Invalid JSON")] })

/-- The handler of `POST /data`. -/
def handler (lib : JSONLib) (body : List UInt8) (s : State) : State × Response :=
  match unmarshal lib body with
  | none => rejectRequest s
  | some input => acceptRequest input s

/-! ## `trackMetrics` (lines 94-114) -/

/-- Lines 103-107: the `secondTicker` branch. -/
def secondTick (s : State) : State :=
  let currentRequests := s.totalRequests
  let delta := subUint64 currentRequests s.lastRequests
  let s1 := { s with lastRequests := currentRequests }
  let s2 := { s1 with requestsPerSecond := float64OfUint64 delta }
  { s2 with requestsPerSecondGauge := s2.requestsPerSecond }

/-- Line 109: load the accumulator and convert it. -/
def minuteLoad (s : State) : State :=
  { s with requestsPerMinute := float64OfUint64 s.lastMinuteRequests }

/-- Line 110: publish the per-minute value. -/
def minuteGauge (s : State) : State :=
  { s with requestsPerMinuteGauge := s.requestsPerMinute }

/-- Line 111: `atomic.StoreUint64(&lastMinuteRequests, 0)`. -/
def minuteStore (s : State) : State :=
  { s with lastMinuteRequests := 0 }

/-- Lines 109-111: the `minuteTicker` branch, run without interruption. -/
def minuteTick (s : State) : State :=
  minuteStore (minuteGauge (minuteLoad s))

/-- The two tickers of `trackMetrics`. -/
inductive Ticker where
  | secondTicker
  | minuteTicker
deriving DecidableEq, Repr

/-- One iteration of the `for`/`select` loop of `trackMetrics` (lines 100-113):
the branch of the ticker that fired. -/
def trackMetrics : Ticker → State → State
  | .secondTicker, s => secondTick s
  | .minuteTicker, s => minuteTick s

/-! ## `startTUI` (lines 128-136) -/

/-- One iteration of the refresh loop: read the three values and show them. -/
def refresh (s : State) : State :=
  let total := s.totalRequests
  let sPerSec := s.requestsPerSecond
  let sPerMin := s.requestsPerMinute
  { s with tuiText := some (total, sPerSec, sPerMin) }

/-! ## Sequential executions -/

/-- The whole steps of the system. -/
inductive Step where
  | accept (input : Input)
  | reject
  | secondTick
  | minuteTick
  | refresh
deriving DecidableEq, Repr

/-- Effect of one whole step on the state. -/
def step : Step → State → State
  | .accept input, s => (acceptRequest input s).1
  | .reject, s => (rejectRequest s).1
  | .secondTick, s => trackMetrics Ticker.secondTicker s
  | .minuteTick, s => trackMetrics Ticker.minuteTicker s
  | .refresh, s => refresh s

/-- Run a sequence of whole steps, first step first. -/
def run (tr : List Step) (s : State) : State :=
  tr.foldl (fun acc st => step st acc) s

/-- Whether a step is an accepted request. -/
def Step.isAccept : Step → Bool
  | .accept _ => true
  | _ => false

/-- Number of accepted requests in a sequence of steps. -/
def accepts (tr : List Step) : Nat := tr.countP Step.isAccept

/-- The `requestsPerMinute` values set by the MinuteTicks of a run, in order. -/
def minuteReports : List Step → State → List Nat
  | [], _ => []
  | .minuteTick :: tr, s =>
      (minuteTick s).requestsPerMinute :: minuteReports tr (minuteTick s)
  | st :: tr, s => minuteReports tr (step st s)

/-- The accumulator values loaded by the MinuteTicks of a run, in order. -/
def minuteLoads : List Step → State → List Nat
  | [], _ => []
  | .minuteTick :: tr, s => s.lastMinuteRequests :: minuteLoads tr (minuteTick s)
  | st :: tr, s => minuteLoads tr (step st s)

/-- The `requestsPerSecond` values set by the SecondTicks of a run, in order. -/
def secondReports : List Step → State → List Nat
  | [], _ => []
  | .secondTick :: tr, s =>
      (secondTick s).requestsPerSecond :: secondReports tr (secondTick s)
  | st :: tr, s => secondReports tr (step st s)

/-! ## Minute windows -/

/-- Whether a step is one of the two branches of `trackMetrics`. -/
def Step.isTick : Step → Bool
  | .secondTick => true
  | .minuteTick => true
  | _ => false

/-- The steps of a list of segments, each segment followed by a SecondTick. -/
def segmentsTrace : List (List Step) → List Step
  | [] => []
  | seg :: w => seg ++ Step.secondTick :: segmentsTrace w

/-- The steps of one minute window: its segments, each closed by a SecondTick, and
then the MinuteTick, with nothing between the last SecondTick and the MinuteTick. -/
def windowTrace (w : List (List Step)) : List Step :=
  segmentsTrace w ++ [Step.minuteTick]

/-- A minute window has 60 segments, none of which contains a tick. -/
def IsWindow (w : List (List Step)) : Prop :=
  w.length = 60 ∧ ∀ seg ∈ w, ∀ st ∈ seg, st.isTick = false

/-- The steps of consecutive minute windows. -/
def executionTrace : List (List (List Step)) → List Step
  | [] => []
  | w :: ws => windowTrace w ++ executionTrace ws

/-- State at a window boundary: the last SecondTick has seen the whole total and
the accumulator has just been reset. -/
def WindowStart (s : State) : Prop :=
  s.lastRequests = s.totalRequests ∧ s.totalRequests < 2 ^ 64 ∧ s.lastMinuteRequests = 0

/-- A window with `2 ^ 53` accepted requests in its first second, one in its
second second and none afterwards. -/
def wideWindow : List (List Step) :=
  [List.replicate (2 ^ 53) (Step.accept ⟨"u", 1⟩), [Step.accept ⟨"u", 1⟩]]
    ++ List.replicate 58 []

/-- A window with two accepted requests in each of its 60 seconds. -/
def steadyWindow : List (List Step) :=
  List.replicate 60 [Step.accept ⟨"u", 1⟩, Step.accept ⟨"u", 1⟩]

/-! ## Sample request -/

/-- The bytes of a request body: the JSON object with `username` set to the string
`u` and `age` set to the number 1. -/
def sampleBody : List UInt8 :=
  [123, 34, 117, 115, 101, 114, 110, 97, 109, 101, 34, 58, 34, 117, 34, 44,
   34, 97, 103, 101, 34, 58, 49, 125]

/-- The bytes of the request body that spells the empty JSON array. -/
def arrayBody : List UInt8 := [91, 93]

/-- The bytes of a request body: the JSON object with `age` set to the number
9223372036854775808, which is `2 ^ 63`. -/
def bigAgeBody : List UInt8 :=
  [123, 34, 97, 103, 101, 34, 58, 57, 50, 50, 51, 51, 55, 50, 48, 51, 54, 56, 53,
   52, 55, 55, 53, 56, 48, 56, 125]

/-- A scanner and a name comparison that agree with `encoding/json` on the bodies
used below: `sampleBody`, `arrayBody`, `bigAgeBody` and the empty body. -/
def sampleLib : JSONLib :=
  { scan := fun body =>
      if body = sampleBody then
        some (JSON.obj [("username", JSON.str "u"), ("age", JSON.int 1)])
      else if body = arrayBody then some (JSON.arr [])
      else if body = bigAgeBody then some (JSON.obj [("age", JSON.int (2 ^ 63))])
      else none,
    equalFold := fun a b => decide (a = b) }

/-! ## Interleaved executions of one MinuteTick with increments -/

/-- The atomic steps that matter for the minute accumulator: the add of an
accepted request (line 74) and the three statements of the MinuteTick branch. -/
inductive Atom where
  | add
  | load
  | gauge
  | store
deriving DecidableEq, Repr

/-- Effect of one atomic step. -/
def atom : Atom → State → State
  | .add, s => incMinute s
  | .load, s => minuteLoad s
  | .gauge, s => minuteGauge s
  | .store, s => minuteStore s

/-- Run a schedule of atomic steps, first step first. -/
def runAtoms (sched : List Atom) (s : State) : State :=
  sched.foldl (fun acc a => atom a acc) s

/-- A schedule is an interleaving of one MinuteTick with increments when its
MinuteTick statements, in order, are exactly load, gauge, store. -/
def IsInterleaving (sched : List Atom) : Prop :=
  sched.filter (fun a => a ≠ Atom.add) = [Atom.load, Atom.gauge, Atom.store]

instance (sched : List Atom) : Decidable (IsInterleaving sched) := by
  unfold IsInterleaving; infer_instance

/-! ## Sanity checks of the arithmetic -/

example : float64OfUint64 5 = 5 := by decide
example : float64OfUint64 (2 ^ 53) = 2 ^ 53 := by decide
example : float64OfUint64 (2 ^ 53 + 1) = 2 ^ 53 := by decide
example : float64OfUint64 (2 ^ 53 + 3) = 2 ^ 53 + 4 := by decide
example : float64OfUint64 (2 ^ 64 - 1) = 2 ^ 64 := by decide
example : subUint64 0 1 = 2 ^ 64 - 1 := by decide

/-! ## Lemmas on the arithmetic -/

theorem float64Exp_small (fuel n : Nat) (h : n < 2 ^ 53) : float64Exp fuel n = 0 := by
  cases fuel with
  | zero => rfl
  | succ k => rw [float64Exp, if_pos h]

theorem float64Exp_pow_le (fuel n : Nat) :
    float64Exp fuel n = 0 ∨ 2 ^ float64Exp fuel n ≤ n := by
  induction fuel generalizing n with
  | zero => left; rfl
  | succ k ih =>
    by_cases h : n < 2 ^ 53
    · left; rw [float64Exp, if_pos h]
    · right
      rw [float64Exp, if_neg h]
      rcases ih (n / 2) with h0 | hle
      · rw [h0]; norm_num at h ⊢; omega
      · rw [pow_succ]; omega

theorem float64OfUint64_exact (n : Nat) (h : n ≤ 2 ^ 53) : float64OfUint64 n = n := by
  rcases Nat.lt_or_eq_of_le h with hlt | heq
  · simp [float64OfUint64, float64Exp_small 64 n hlt, Nat.mod_one]
  · subst heq; decide

theorem float64OfUint64_pos (n : Nat) (h : 0 < n) : 0 < float64OfUint64 n := by
  have hq : 0 < n / 2 ^ float64Exp 64 n := by
    rcases float64Exp_pow_le 64 n with h0 | hle
    · rw [h0]; simpa using h
    · exact Nat.div_pos hle (by positivity)
  have hp : 0 < 2 ^ float64Exp 64 n := by positivity
  unfold float64OfUint64
  simp only
  split
  · exact Nat.mul_pos (by omega) hp
  · exact Nat.mul_pos hq hp

/-! ## Lemmas on sequential executions -/

theorem run_nil (s : State) : run [] s = s := rfl

theorem run_cons (st : Step) (tr : List Step) (s : State) :
    run (st :: tr) s = run tr (step st s) := rfl

theorem run_append (a b : List Step) (s : State) :
    run (a ++ b) s = run b (run a s) := by
  simp [run, List.foldl_append]

theorem accepts_nil : accepts [] = 0 := rfl

theorem accepts_cons (st : Step) (tr : List Step) :
    accepts (st :: tr) = accepts tr + (if st.isAccept then 1 else 0) := by
  simp [accepts, List.countP_cons]

theorem accepts_append (a b : List Step) : accepts (a ++ b) = accepts a + accepts b := by
  simp [accepts, List.countP_append]

theorem accepts_replicate (n : Nat) (input : Input) :
    accepts (List.replicate n (Step.accept input)) = n := by
  induction n with
  | zero => rfl
  | succ k ih => rw [List.replicate_succ, accepts_cons, ih]; simp [Step.isAccept]

theorem minuteReports_append (a b : List Step) (s : State) :
    minuteReports (a ++ b) s = minuteReports a s ++ minuteReports b (run a s) := by
  induction a generalizing s with
  | nil => rfl
  | cons st tr ih => cases st <;> simp [minuteReports, run_cons, step, trackMetrics, ih]

theorem secondReports_append (a b : List Step) (s : State) :
    secondReports (a ++ b) s = secondReports a s ++ secondReports b (run a s) := by
  induction a generalizing s with
  | nil => rfl
  | cons st tr ih => cases st <;> simp [secondReports, run_cons, step, trackMetrics, ih]

/-- The total counter after a run is the start value plus the number of accepted
requests, modulo `2 ^ 64`. -/
theorem run_totalRequests (tr : List Step) (s : State) (h : s.totalRequests < 2 ^ 64) :
    (run tr s).totalRequests = (s.totalRequests + accepts tr) % 2 ^ 64 := by
  induction tr generalizing s with
  | nil => rw [run_nil, accepts_nil, Nat.add_zero, Nat.mod_eq_of_lt h]
  | cons st tr ih =>
    rw [run_cons, accepts_cons]
    cases st
    case accept input =>
      have hlt : (step (Step.accept input) s).totalRequests < 2 ^ 64 := by
        simp only [step, trackMetrics, acceptRequest, incCounter, incMinute, incTotal, addUint64]
        exact Nat.mod_lt _ (by norm_num)
      rw [ih _ hlt]
      simp only [step, trackMetrics, acceptRequest, incCounter, incMinute, incTotal, addUint64,
        Step.isAccept, if_true]
      omega
    all_goals
      rw [ih _ (by simpa [step, trackMetrics, rejectRequest, secondTick, minuteTick, minuteStore,
        minuteGauge, minuteLoad, refresh] using h)]
      simp [step, trackMetrics, rejectRequest, secondTick, minuteTick, minuteStore, minuteGauge,
        minuteLoad, refresh, Step.isAccept]

/-- Only a SecondTick writes `lastRequests`. -/
theorem run_lastRequests (tr : List Step) (s : State)
    (h : ∀ st ∈ tr, st ≠ Step.secondTick) :
    (run tr s).lastRequests = s.lastRequests := by
  induction tr generalizing s with
  | nil => rfl
  | cons st tr ih =>
    rw [run_cons, ih _ (fun x hx => h x (List.mem_cons_of_mem _ hx))]
    have hst : st ≠ Step.secondTick := h st (List.mem_cons_self _ _)
    cases st <;>
      simp_all [step, trackMetrics, acceptRequest, incCounter, incMinute, incTotal, rejectRequest,
        minuteTick, minuteStore, minuteGauge, minuteLoad, refresh]

/-- Between MinuteTicks the accumulator counts the accepted requests, modulo
`2 ^ 64`. -/
theorem run_lastMinuteRequests (tr : List Step) (s : State)
    (hs : s.lastMinuteRequests < 2 ^ 64) (h : ∀ st ∈ tr, st ≠ Step.minuteTick) :
    (run tr s).lastMinuteRequests = (s.lastMinuteRequests + accepts tr) % 2 ^ 64 := by
  induction tr generalizing s with
  | nil => rw [run_nil, accepts_nil, Nat.add_zero, Nat.mod_eq_of_lt hs]
  | cons st tr ih =>
    have htl : ∀ x ∈ tr, x ≠ Step.minuteTick := fun x hx => h x (List.mem_cons_of_mem _ hx)
    have hst : st ≠ Step.minuteTick := h st (List.mem_cons_self _ _)
    rw [run_cons, accepts_cons]
    cases st
    case accept input =>
      have hlt : (step (Step.accept input) s).lastMinuteRequests < 2 ^ 64 := by
        simp only [step, trackMetrics, acceptRequest, incCounter, incMinute, incTotal, addUint64]
        exact Nat.mod_lt _ (by norm_num)
      rw [ih _ hlt htl]
      simp only [step, trackMetrics, acceptRequest, incCounter, incMinute, incTotal, addUint64,
        Step.isAccept, if_true]
      omega
    case minuteTick => exact absurd rfl hst
    all_goals
      rw [ih _ (by simpa [step, trackMetrics, rejectRequest, secondTick, refresh] using hs) htl]
      simp [step, trackMetrics, rejectRequest, secondTick, refresh, Step.isAccept]

/-- Only a MinuteTick writes `requestsPerMinute`. -/
theorem run_requestsPerMinute (tr : List Step) (s : State)
    (h : ∀ st ∈ tr, st ≠ Step.minuteTick) :
    (run tr s).requestsPerMinute = s.requestsPerMinute := by
  induction tr generalizing s with
  | nil => rfl
  | cons st tr ih =>
    rw [run_cons, ih _ (fun x hx => h x (List.mem_cons_of_mem _ hx))]
    have hst : st ≠ Step.minuteTick := h st (List.mem_cons_self _ _)
    cases st <;>
      simp_all [step, trackMetrics, acceptRequest, incCounter, incMinute, incTotal, rejectRequest,
        secondTick, refresh]

theorem minuteReports_eq_nil (tr : List Step) (s : State)
    (h : ∀ st ∈ tr, st ≠ Step.minuteTick) : minuteReports tr s = [] := by
  induction tr generalizing s with
  | nil => rfl
  | cons st tr ih =>
    have hst : st ≠ Step.minuteTick := h st (List.mem_cons_self _ _)
    have htl := ih (step st s) (fun x hx => h x (List.mem_cons_of_mem _ hx))
    cases st <;> simp_all [minuteReports]

theorem secondReports_eq_nil (tr : List Step) (s : State)
    (h : ∀ st ∈ tr, st ≠ Step.secondTick) : secondReports tr s = [] := by
  induction tr generalizing s with
  | nil => rfl
  | cons st tr ih =>
    have hst : st ≠ Step.secondTick := h st (List.mem_cons_self _ _)
    have htl := ih (step st s) (fun x hx => h x (List.mem_cons_of_mem _ hx))
    cases st <;> simp_all [secondReports]

/-- Without overflow of the total, `lastRequests ≤ totalRequests` is preserved and
the total is the exact count. -/
theorem run_lastRequests_le (tr : List Step) (s : State)
    (hle : s.lastRequests ≤ s.totalRequests) (h : s.totalRequests + accepts tr < 2 ^ 64) :
    (run tr s).lastRequests ≤ (run tr s).totalRequests := by
  induction tr generalizing s with
  | nil => exact hle
  | cons st tr ih =>
    rw [run_cons]
    rw [accepts_cons] at h
    cases st
    case accept input =>
      have ht : (step (Step.accept input) s).totalRequests = s.totalRequests + 1 := by
        show (s.totalRequests + 1) % 2 ^ 64 = _
        simp only [Step.isAccept, if_true] at h
        exact Nat.mod_eq_of_lt (by omega)
      have hl : (step (Step.accept input) s).lastRequests = s.lastRequests := rfl
      apply ih
      · rw [ht, hl]; omega
      · rw [ht]; simp only [Step.isAccept, if_true] at h; omega
    case secondTick =>
      apply ih
      · exact Nat.le_refl _
      · simpa [Step.isAccept] using h
    all_goals
      apply ih
      · exact hle
      · simpa [Step.isAccept] using h

/-- Each MinuteTick reports the `float64` conversion of the value it loads. -/
theorem minuteReports_eq_map_minuteLoads (tr : List Step) (s : State) :
    minuteReports tr s = (minuteLoads tr s).map float64OfUint64 := by
  induction tr generalizing s with
  | nil => rfl
  | cons st tr ih =>
    cases st <;> simp only [minuteReports, minuteLoads, List.map_cons, ih]
    rfl

/-- Without overflow, the values loaded by the MinuteTicks of a run and the
accumulator left at the end add up to the start value of the accumulator plus the
number of accepted requests. -/
theorem run_minuteLoads_sum (tr : List Step) (s : State)
    (h : s.lastMinuteRequests + accepts tr < 2 ^ 64) :
    (minuteLoads tr s).sum + (run tr s).lastMinuteRequests
      = s.lastMinuteRequests + accepts tr := by
  induction tr generalizing s with
  | nil => simp [minuteLoads, run_nil, accepts_nil]
  | cons st tr ih =>
    rw [run_cons, accepts_cons]
    rw [accepts_cons] at h
    cases st
    case accept input =>
      simp only [Step.isAccept, if_true] at h ⊢
      have hm : (step (Step.accept input) s).lastMinuteRequests
          = s.lastMinuteRequests + 1 := by
        show (s.lastMinuteRequests + 1) % 2 ^ 64 = _
        exact Nat.mod_eq_of_lt (by omega)
      have hi := ih (step (Step.accept input) s) (by rw [hm]; omega)
      rw [hm] at hi
      simp only [minuteLoads]
      omega
    case minuteTick =>
      simp only [Step.isAccept] at h ⊢
      have hm : (minuteTick s).lastMinuteRequests = 0 := rfl
      have hi := ih (minuteTick s) (by rw [hm]; simp at h; omega)
      rw [hm] at hi
      simp only [minuteLoads, step, trackMetrics, List.sum_cons]
      simp at hi ⊢
      omega
    case reject =>
      have hi := ih (step Step.reject s) (by simpa [Step.isAccept] using h)
      simpa [minuteLoads, Step.isAccept] using hi
    case secondTick =>
      have hi := ih (step Step.secondTick s) (by simpa [Step.isAccept] using h)
      simpa [minuteLoads, Step.isAccept] using hi
    case refresh =>
      have hi := ih (step Step.refresh s) (by simpa [Step.isAccept] using h)
      simpa [minuteLoads, Step.isAccept] using hi

theorem map_eq_self_of_forall (f : Nat → Nat) (l : List Nat) (h : ∀ m ∈ l, f m = m) :
    l.map f = l := by
  induction l with
  | nil => rfl
  | cons a l ih =>
    rw [List.map_cons, h a (List.mem_cons_self _ _),
      ih (fun m hm => h m (List.mem_cons_of_mem _ hm))]

/-- Full state after `n` accepted requests in a row. -/
theorem run_replicate_accept (n : Nat) (input : Input) (s : State) (h : s.InRange)
    (hc : s.requestCounter < 2 ^ 64) :
    run (List.replicate n (Step.accept input)) s =
      { s with totalRequests := (s.totalRequests + n) % 2 ^ 64,
               lastMinuteRequests := (s.lastMinuteRequests + n) % 2 ^ 64,
               requestCounter := (s.requestCounter + n) % 2 ^ 64 } := by
  induction n generalizing s with
  | zero =>
    obtain ⟨h1, _, h3⟩ := h
    cases s
    simp only [State.mk.injEq, List.replicate_zero, run_nil, Nat.add_zero, and_true, true_and]
    exact ⟨(Nat.mod_eq_of_lt h1).symm, (Nat.mod_eq_of_lt h3).symm, (Nat.mod_eq_of_lt hc).symm⟩
  | succ k ih =>
    rw [List.replicate_succ, run_cons, ih]
    · simp only [step, trackMetrics, acceptRequest, incCounter, incMinute, incTotal, addUint64,
        State.mk.injEq, and_true, true_and]
      refine ⟨by omega, by omega, by omega⟩
    · obtain ⟨_, h2, _⟩ := h
      refine ⟨?_, h2, ?_⟩
      · exact Nat.mod_lt _ (by norm_num)
      · exact Nat.mod_lt _ (by norm_num)
    · show (s.requestCounter + 1) % 2 ^ 64 < 2 ^ 64
      exact Nat.mod_lt _ (by norm_num)

/-- The delta computed by a SecondTick after a window without another SecondTick
is the number of accepted requests of the window, modulo `2 ^ 64`. -/
theorem secondTick_window_delta (s : State) (tr : List Step)
    (hs : s.totalRequests < 2 ^ 64) (htr : ∀ st ∈ tr, st ≠ Step.secondTick) :
    (secondTick (run tr (secondTick s))).requestsPerSecond
      = float64OfUint64 (accepts tr % 2 ^ 64) := by
  have ht := run_totalRequests tr (secondTick s) hs
  have hl := run_lastRequests tr (secondTick s) htr
  have h1 : (secondTick s).totalRequests = s.totalRequests := rfl
  have h2 : (secondTick s).lastRequests = s.totalRequests := rfl
  rw [h1] at ht
  rw [h2] at hl
  show float64OfUint64 (subUint64 (run tr (secondTick s)).totalRequests
    (run tr (secondTick s)).lastRequests) = _
  rw [ht, hl]
  congr 1
  unfold subUint64
  omega

/-! ## The MinuteTick branch -/

/-- The uninterrupted MinuteTick is the schedule load, gauge, store. -/
theorem minuteTick_eq_runAtoms (s : State) :
    minuteTick s = runAtoms [Atom.load, Atom.gauge, Atom.store] s := rfl

/-- C2, on the code: an increment scheduled between the load of line 109 and the
store of line 111 is counted in neither window. From the zero state, the schedule
load, gauge, add, store is an interleaving of one MinuteTick with one increment,
yet the reported `requestsPerMinute` plus the accumulator left behind is 0, not
the 1 that counting every increment exactly once requires. -/
theorem minuteTick_interleaved_loses_increment :
    IsInterleaving [Atom.load, Atom.gauge, Atom.add, Atom.store] ∧
    (runAtoms [Atom.load, Atom.gauge, Atom.add, Atom.store] init).requestsPerMinute = 0 ∧
    (runAtoms [Atom.load, Atom.gauge, Atom.add, Atom.store] init).lastMinuteRequests = 0 ∧
    (runAtoms [Atom.load, Atom.gauge, Atom.add, Atom.store] init).requestsPerMinute
        + (runAtoms [Atom.load, Atom.gauge, Atom.add, Atom.store] init).lastMinuteRequests
      ≠ init.lastMinuteRequests
        + List.count Atom.add [Atom.load, Atom.gauge, Atom.add, Atom.store] := by
  decide

/-- C3, as stated, fails: with `2 ^ 53 + 1` in the accumulator the MinuteTick
reports `2 ^ 53`, because `requestsPerMinute` is a `float64`. -/
theorem minuteTick_rounds_large_accumulator :
    (stateOf (2 ^ 53 + 1) 0 (2 ^ 53 + 1)).InRange ∧
    (stateOf (2 ^ 53 + 1) 0 (2 ^ 53 + 1)).lastMinuteRequests = 2 ^ 53 + 1 ∧
    (minuteTick (stateOf (2 ^ 53 + 1) 0 (2 ^ 53 + 1))).requestsPerMinute = 2 ^ 53 ∧
    (minuteTick (stateOf (2 ^ 53 + 1) 0 (2 ^ 53 + 1))).requestsPerMinute
      ≠ (stateOf (2 ^ 53 + 1) 0 (2 ^ 53 + 1)).lastMinuteRequests := by
  decide

/-- C3, amended: for every state, an uninterrupted MinuteTick sets
`requestsPerMinute` to the `float64` conversion of the accumulator and resets the
accumulator to 0; the value set is the accumulator itself when that is at most
`2 ^ 53`. Hence, after any steps other than a MinuteTick that contain `n` accepted
requests, starting with accumulator `m` and `m + n ≤ 2 ^ 53`, the MinuteTick
reports `m + n` and leaves 0. -/
theorem minuteTick_captures_and_resets (s : State) :
    (minuteTick s).requestsPerMinute = float64OfUint64 s.lastMinuteRequests ∧
    (minuteTick s).lastMinuteRequests = 0 ∧
    (s.lastMinuteRequests ≤ 2 ^ 53 →
      (minuteTick s).requestsPerMinute = s.lastMinuteRequests) ∧
    (∀ tr : List Step, (∀ st ∈ tr, st ≠ Step.minuteTick) →
      s.lastMinuteRequests + accepts tr ≤ 2 ^ 53 →
      (minuteTick (run tr s)).requestsPerMinute = s.lastMinuteRequests + accepts tr ∧
      (minuteTick (run tr s)).lastMinuteRequests = 0) := by
  refine ⟨rfl, rfl, fun hm => float64OfUint64_exact _ hm, ?_⟩
  intro tr htr hn
  have hrun := run_lastMinuteRequests tr s (by omega) htr
  have hmod : (s.lastMinuteRequests + accepts tr) % 2 ^ 64 = s.lastMinuteRequests + accepts tr :=
    Nat.mod_eq_of_lt (by omega)
  refine ⟨?_, rfl⟩
  show float64OfUint64 (run tr s).lastMinuteRequests = _
  rw [hrun, hmod]
  exact float64OfUint64_exact _ hn

/-- Scenario of C3: from the zero state, 120 accepted requests and then the
MinuteTick: `requestsPerMinute` is 120 and the accumulator is 0. -/
theorem minuteTick_captures_and_resets_witness :
    (minuteTick (run (List.replicate 120 (Step.accept ⟨"u", 1⟩)) init)).requestsPerMinute
      = 120 ∧
    (minuteTick (run (List.replicate 120 (Step.accept ⟨"u", 1⟩)) init)).lastMinuteRequests
      = 0 := by
  have h := (minuteTick_captures_and_resets init).2.2.2
    (List.replicate 120 (Step.accept ⟨"u", 1⟩))
    (by intro st hst; rw [List.eq_of_mem_replicate hst]; simp)
    (by rw [accepts_replicate]; decide)
  rw [accepts_replicate] at h
  exact ⟨by simpa [init] using h.1, h.2⟩

/-! ## The SecondTick branch -/

/-- C5, as stated, fails: with total 0 and `lastRequests` 1 the `uint64`
subtraction wraps to `2 ^ 64 - 1`, and `requestsPerSecond` becomes its `float64`
conversion `2 ^ 64`, not 0. -/
theorem secondTick_negative_delta_not_clamped :
    (stateOf 0 1 0).InRange ∧
    (stateOf 0 1 0).totalRequests < (stateOf 0 1 0).lastRequests ∧
    (secondTick (stateOf 0 1 0)).requestsPerSecond = 2 ^ 64 ∧
    (secondTick (stateOf 0 1 0)).requestsPerSecond ≠ 0 := by
  decide

/-- C5, amended: there is no clamp. When the total read is smaller than
`lastRequests`, the SecondTick sets `requestsPerSecond` to the `float64` conversion
of the wrapped difference `2 ^ 64 - (lastRequests - total)`, which is never 0, and
still updates `lastRequests` to the total read. -/
theorem secondTick_negative_delta_wraps (s : State) (hr : s.lastRequests < 2 ^ 64)
    (hneg : s.totalRequests < s.lastRequests) :
    (secondTick s).requestsPerSecond
      = float64OfUint64 (2 ^ 64 - (s.lastRequests - s.totalRequests)) ∧
    0 < (secondTick s).requestsPerSecond ∧
    (secondTick s).lastRequests = s.totalRequests := by
  have hsub : subUint64 s.totalRequests s.lastRequests
      = 2 ^ 64 - (s.lastRequests - s.totalRequests) := by
    unfold subUint64; omega
  have hrps : (secondTick s).requestsPerSecond
      = float64OfUint64 (subUint64 s.totalRequests s.lastRequests) := rfl
  refine ⟨by rw [hrps, hsub], ?_, rfl⟩
  rw [hrps, hsub]
  exact float64OfUint64_pos _ (by omega)

/-- Instance of the amended C5 at total 0 and `lastRequests` 1. -/
theorem secondTick_negative_delta_wraps_witness :
    (stateOf 0 1 0).totalRequests < (stateOf 0 1 0).lastRequests ∧
    0 < (secondTick (stateOf 0 1 0)).requestsPerSecond ∧
    (secondTick (stateOf 0 1 0)).lastRequests = 0 :=
  ⟨by decide,
   (secondTick_negative_delta_wraps (stateOf 0 1 0) (by decide) (by decide)).2.1,
   (secondTick_negative_delta_wraps (stateOf 0 1 0) (by decide) (by decide)).2.2⟩

/-- C8: the SecondTick branch leaves `lastMinuteRequests` and `requestsPerMinute`
unchanged, the MinuteTick branch leaves `lastRequests` and `requestsPerSecond`
unchanged, and the two branches commute. -/
theorem secondTick_minuteTick_disjoint (s : State) :
    (secondTick s).lastMinuteRequests = s.lastMinuteRequests ∧
    (secondTick s).requestsPerMinute = s.requestsPerMinute ∧
    (minuteTick s).lastRequests = s.lastRequests ∧
    (minuteTick s).requestsPerSecond = s.requestsPerSecond ∧
    minuteTick (secondTick s) = secondTick (minuteTick s) :=
  ⟨rfl, rfl, rfl, rfl, rfl⟩

/-- C1, as stated, fails: after `2 ^ 53 + 1` accepted requests in one window the
SecondTick sets `requestsPerSecond` to `2 ^ 53`, because the delta is converted to
`float64`. -/
theorem secondTick_rounds_large_window :
    accepts (List.replicate (2 ^ 53 + 1) (Step.accept ⟨"u", 1⟩)) = 2 ^ 53 + 1 ∧
    (secondTick (run (List.replicate (2 ^ 53 + 1) (Step.accept ⟨"u", 1⟩))
      (secondTick init))).requestsPerSecond = 2 ^ 53 ∧
    (secondTick (run (List.replicate (2 ^ 53 + 1) (Step.accept ⟨"u", 1⟩))
      (secondTick init))).requestsPerSecond
      ≠ accepts (List.replicate (2 ^ 53 + 1) (Step.accept ⟨"u", 1⟩)) := by
  have hno : ∀ st ∈ List.replicate (2 ^ 53 + 1) (Step.accept ⟨"u", 1⟩),
      st ≠ Step.secondTick := by
    intro st hst; rw [List.eq_of_mem_replicate hst]; simp
  have h := secondTick_window_delta init _ (by decide) hno
  rw [accepts_replicate] at h
  have hv : float64OfUint64 ((2 ^ 53 + 1) % 2 ^ 64) = 2 ^ 53 := by decide
  rw [hv] at h
  refine ⟨accepts_replicate _ _, h, ?_⟩
  rw [h, accepts_replicate]
  decide

/-- C1, amended: take any state with the total in `uint64` range, run a
SecondTick, then any steps other than a SecondTick containing `N` accepted
requests with `N ≤ 2 ^ 53`; the next SecondTick sets `requestsPerSecond` to `N`
and `lastRequests` to the current total. -/
theorem secondTick_counts_window (s : State) (tr : List Step)
    (hs : s.totalRequests < 2 ^ 64) (htr : ∀ st ∈ tr, st ≠ Step.secondTick)
    (hN : accepts tr ≤ 2 ^ 53) :
    (secondTick (run tr (secondTick s))).requestsPerSecond = accepts tr ∧
    (secondTick (run tr (secondTick s))).lastRequests
      = (run tr (secondTick s)).totalRequests := by
  refine ⟨?_, rfl⟩
  rw [secondTick_window_delta s tr hs htr, Nat.mod_eq_of_lt (by omega)]
  exact float64OfUint64_exact _ hN

/-- Scenario of C1: from the zero state, 5 accepted requests and a SecondTick give
`requestsPerSecond = 5`; a further SecondTick with no request gives 0. -/
theorem secondTick_counts_window_witness :
    (secondTick (run (List.replicate 5 (Step.accept ⟨"u", 1⟩))
      (secondTick init))).requestsPerSecond = 5 ∧
    (secondTick (run [] (secondTick (run (List.replicate 5 (Step.accept ⟨"u", 1⟩))
      (secondTick init))))).requestsPerSecond = 0 :=
  ⟨(secondTick_counts_window init (List.replicate 5 (Step.accept ⟨"u", 1⟩))
      (by decide) (by decide) (by decide)).1,
   (secondTick_counts_window (run (List.replicate 5 (Step.accept ⟨"u", 1⟩))
      (secondTick init)) [] (by decide) (by decide) (by decide)).1⟩

/-! ## Reachable states -/

/-- C9: in every state reached from the zero state by accepted requests, rejected
requests, SecondTicks, MinuteTicks and refreshes, with fewer than `2 ^ 64` accepted
requests in all, `lastRequests ≤ totalRequests`; the `uint64` subtraction of the
SecondTick is then the true difference, and the negative case does not arise. -/
theorem lastRequests_le_totalRequests (tr : List Step) (h : accepts tr < 2 ^ 64) :
    (run tr init).lastRequests ≤ (run tr init).totalRequests ∧
    (run tr init).totalRequests = accepts tr ∧
    subUint64 (run tr init).totalRequests (run tr init).lastRequests
      = (run tr init).totalRequests - (run tr init).lastRequests ∧
    ¬ (run tr init).totalRequests < (run tr init).lastRequests := by
  have hle : (run tr init).lastRequests ≤ (run tr init).totalRequests :=
    run_lastRequests_le tr init (Nat.le_refl _) (by simpa [init] using h)
  have ht : (run tr init).totalRequests = accepts tr := by
    rw [run_totalRequests tr init (by decide)]
    simpa [init] using Nat.mod_eq_of_lt h
  refine ⟨hle, ht, ?_, by omega⟩
  unfold subUint64
  omega

/-- Instance of C9: two accepted requests, a SecondTick, one more accepted
request. -/
theorem lastRequests_le_totalRequests_witness :
    (run [Step.accept ⟨"u", 1⟩, Step.accept ⟨"u", 1⟩, Step.secondTick,
      Step.accept ⟨"u", 1⟩] init).lastRequests
      ≤ (run [Step.accept ⟨"u", 1⟩, Step.accept ⟨"u", 1⟩, Step.secondTick,
      Step.accept ⟨"u", 1⟩] init).totalRequests :=
  (lastRequests_le_totalRequests [Step.accept ⟨"u", 1⟩, Step.accept ⟨"u", 1⟩,
    Step.secondTick, Step.accept ⟨"u", 1⟩] (by decide)).1

/-- C10, as stated, fails in two ways. After `2 ^ 53 + 1` accepted requests and
one MinuteTick the total is `2 ^ 53 + 1`, while the only reported
`requestsPerMinute` is `2 ^ 53` and the accumulator is 0. And after `2 ^ 63`
accepted requests, a MinuteTick and `2 ^ 63` more accepted requests the total has
wrapped to 0, while the reported value and the accumulator are `2 ^ 63` each, so
that `lastMinuteRequests ≤ totalRequests` fails as well. -/
theorem conservation_fails_large_window :
    ((run (List.replicate (2 ^ 53 + 1) (Step.accept ⟨"u", 1⟩) ++ [Step.minuteTick])
        init).totalRequests = 2 ^ 53 + 1 ∧
      minuteReports (List.replicate (2 ^ 53 + 1) (Step.accept ⟨"u", 1⟩) ++ [Step.minuteTick])
        init = [2 ^ 53] ∧
      (run (List.replicate (2 ^ 53 + 1) (Step.accept ⟨"u", 1⟩) ++ [Step.minuteTick])
        init).lastMinuteRequests = 0 ∧
      (run (List.replicate (2 ^ 53 + 1) (Step.accept ⟨"u", 1⟩) ++ [Step.minuteTick])
        init).totalRequests
        ≠ (minuteReports (List.replicate (2 ^ 53 + 1) (Step.accept ⟨"u", 1⟩)
            ++ [Step.minuteTick]) init).sum
          + (run (List.replicate (2 ^ 53 + 1) (Step.accept ⟨"u", 1⟩) ++ [Step.minuteTick])
            init).lastMinuteRequests) ∧
    ((run (List.replicate (2 ^ 63) (Step.accept ⟨"u", 1⟩) ++ ([Step.minuteTick]
        ++ List.replicate (2 ^ 63) (Step.accept ⟨"u", 1⟩))) init).totalRequests = 0 ∧
      minuteReports (List.replicate (2 ^ 63) (Step.accept ⟨"u", 1⟩) ++ ([Step.minuteTick]
        ++ List.replicate (2 ^ 63) (Step.accept ⟨"u", 1⟩))) init = [2 ^ 63] ∧
      (run (List.replicate (2 ^ 63) (Step.accept ⟨"u", 1⟩) ++ ([Step.minuteTick]
        ++ List.replicate (2 ^ 63) (Step.accept ⟨"u", 1⟩))) init).lastMinuteRequests
        = 2 ^ 63 ∧
      ¬ (run (List.replicate (2 ^ 63) (Step.accept ⟨"u", 1⟩) ++ ([Step.minuteTick]
        ++ List.replicate (2 ^ 63) (Step.accept ⟨"u", 1⟩))) init).lastMinuteRequests
        ≤ (run (List.replicate (2 ^ 63) (Step.accept ⟨"u", 1⟩) ++ ([Step.minuteTick]
        ++ List.replicate (2 ^ 63) (Step.accept ⟨"u", 1⟩))) init).totalRequests) := by
  have hnoA (n : Nat) : ∀ st ∈ List.replicate n (Step.accept ⟨"u", 1⟩),
      st ≠ Step.minuteTick := by
    intro st hst; rw [List.eq_of_mem_replicate hst]; simp
  constructor
  · have hrun := run_replicate_accept (2 ^ 53 + 1) ⟨"u", 1⟩ init (by decide) (by decide)
    have h1 : (run (List.replicate (2 ^ 53 + 1) (Step.accept ⟨"u", 1⟩) ++ [Step.minuteTick])
        init).totalRequests = 2 ^ 53 + 1 := by
      rw [run_append, hrun]; decide
    have h2 : minuteReports (List.replicate (2 ^ 53 + 1) (Step.accept ⟨"u", 1⟩)
        ++ [Step.minuteTick]) init = [2 ^ 53] := by
      rw [minuteReports_append, minuteReports_eq_nil _ _ (hnoA _), hrun]; decide
    have h3 : (run (List.replicate (2 ^ 53 + 1) (Step.accept ⟨"u", 1⟩) ++ [Step.minuteTick])
        init).lastMinuteRequests = 0 := by
      rw [run_append]; rfl
    refine ⟨h1, h2, h3, ?_⟩
    rw [h1, h2, h3]
    decide
  · have hrunA := run_replicate_accept (2 ^ 63) ⟨"u", 1⟩ init (by decide) (by decide)
    have hmid : run [Step.minuteTick] (run (List.replicate (2 ^ 63) (Step.accept ⟨"u", 1⟩))
        init) = { stateOf (2 ^ 63) 0 0 with
          requestsPerMinute := 2 ^ 63, requestsPerMinuteGauge := 2 ^ 63,
          requestCounter := 2 ^ 63 } := by
      rw [hrunA]; decide
    have hrunB := run_replicate_accept (2 ^ 63) ⟨"u", 1⟩
      { stateOf (2 ^ 63) 0 0 with
          requestsPerMinute := 2 ^ 63, requestsPerMinuteGauge := 2 ^ 63,
          requestCounter := 2 ^ 63 } (by decide) (by decide)
    have h1 : (run (List.replicate (2 ^ 63) (Step.accept ⟨"u", 1⟩) ++ ([Step.minuteTick]
        ++ List.replicate (2 ^ 63) (Step.accept ⟨"u", 1⟩))) init).totalRequests = 0 := by
      rw [run_append, run_append, hmid, hrunB]; decide
    have h2 : minuteReports (List.replicate (2 ^ 63) (Step.accept ⟨"u", 1⟩)
        ++ ([Step.minuteTick] ++ List.replicate (2 ^ 63) (Step.accept ⟨"u", 1⟩))) init
        = [2 ^ 63] := by
      rw [minuteReports_append, minuteReports_eq_nil _ _ (hnoA _), minuteReports_append,
        minuteReports_eq_nil _ _ (hnoA _), hrunA]
      decide
    have h3 : (run (List.replicate (2 ^ 63) (Step.accept ⟨"u", 1⟩) ++ ([Step.minuteTick]
        ++ List.replicate (2 ^ 63) (Step.accept ⟨"u", 1⟩))) init).lastMinuteRequests
        = 2 ^ 63 := by
      rw [run_append, run_append, hmid, hrunB]; decide
    refine ⟨h1, h2, h3, ?_⟩
    rw [h1, h3]
    decide

/-- C10, amended: in every state reached from the zero state by whole steps with
fewer than `2 ^ 64` accepted requests in all, `lastMinuteRequests ≤ totalRequests`;
and if, in addition, every MinuteTick so far loaded an accumulator value that
`float64` represents exactly, as every value up to `2 ^ 53` is, then
`totalRequests` equals the sum of the `requestsPerMinute` values reported by the
MinuteTicks so far plus the current `lastMinuteRequests`. -/
theorem totalRequests_eq_reports_add_accumulator (tr : List Step)
    (h : accepts tr < 2 ^ 64) :
    (run tr init).lastMinuteRequests ≤ (run tr init).totalRequests ∧
    ((∀ m ∈ minuteLoads tr init, float64OfUint64 m = m) →
      (run tr init).totalRequests
        = (minuteReports tr init).sum + (run tr init).lastMinuteRequests) ∧
    ((∀ m ∈ minuteLoads tr init, m ≤ 2 ^ 53) →
      (run tr init).totalRequests
        = (minuteReports tr init).sum + (run tr init).lastMinuteRequests) := by
  have ht : (run tr init).totalRequests = accepts tr := by
    rw [run_totalRequests tr init (by decide)]
    simpa [init] using Nat.mod_eq_of_lt h
  have hc := run_minuteLoads_sum tr init (by simpa [init] using h)
  have h0 : init.lastMinuteRequests = 0 := rfl
  rw [h0, Nat.zero_add] at hc
  have hexact : (∀ m ∈ minuteLoads tr init, float64OfUint64 m = m) →
      (run tr init).totalRequests
        = (minuteReports tr init).sum + (run tr init).lastMinuteRequests := by
    intro hrep
    rw [minuteReports_eq_map_minuteLoads, map_eq_self_of_forall _ _ hrep, ht, hc]
  refine ⟨by omega, hexact, ?_⟩
  intro hle
  exact hexact (fun m hm => float64OfUint64_exact m (hle m hm))

/-- Instance of the amended C10: two accepted requests, a MinuteTick, one more
accepted request; the total 3 is the reported 2 plus the accumulator 1. -/
theorem totalRequests_eq_reports_add_accumulator_witness :
    accepts [Step.accept ⟨"u", 1⟩, Step.accept ⟨"u", 1⟩, Step.minuteTick,
      Step.accept ⟨"u", 1⟩] < 2 ^ 64 ∧
    minuteLoads [Step.accept ⟨"u", 1⟩, Step.accept ⟨"u", 1⟩, Step.minuteTick,
      Step.accept ⟨"u", 1⟩] init = [2] ∧
    (run [Step.accept ⟨"u", 1⟩, Step.accept ⟨"u", 1⟩, Step.minuteTick,
      Step.accept ⟨"u", 1⟩] init).totalRequests
      = (minuteReports [Step.accept ⟨"u", 1⟩, Step.accept ⟨"u", 1⟩, Step.minuteTick,
          Step.accept ⟨"u", 1⟩] init).sum
        + (run [Step.accept ⟨"u", 1⟩, Step.accept ⟨"u", 1⟩, Step.minuteTick,
          Step.accept ⟨"u", 1⟩] init).lastMinuteRequests :=
  ⟨by decide, by decide,
   (totalRequests_eq_reports_add_accumulator [Step.accept ⟨"u", 1⟩, Step.accept ⟨"u", 1⟩,
      Step.minuteTick, Step.accept ⟨"u", 1⟩] (by decide)).2.2 (by decide)⟩

/-! ## Minute windows -/

theorem Step.ne_secondTick_of_isTick (st : Step) (h : st.isTick = false) :
    st ≠ Step.secondTick := by
  intro he; rw [he] at h; simp [Step.isTick] at h

theorem Step.ne_minuteTick_of_isTick (st : Step) (h : st.isTick = false) :
    st ≠ Step.minuteTick := by
  intro he; rw [he] at h; simp [Step.isTick] at h

theorem accepts_segmentsTrace (w : List (List Step)) :
    accepts (segmentsTrace w) = (w.map accepts).sum := by
  induction w with
  | nil => rfl
  | cons seg w ih =>
    rw [segmentsTrace, accepts_append, accepts_cons, ih]
    simp [Step.isAccept]

theorem accepts_windowTrace (w : List (List Step)) :
    accepts (windowTrace w) = (w.map accepts).sum := by
  rw [windowTrace, accepts_append, accepts_segmentsTrace]
  simp [accepts, Step.isAccept]

/-- Running the segments of a window from a state whose last SecondTick has seen
the whole total: each SecondTick reports the `float64` conversion of the number of
accepted requests of its segment modulo `2 ^ 64`. -/
theorem run_segmentsTrace (w : List (List Step)) (s : State)
    (hw : ∀ seg ∈ w, ∀ st ∈ seg, st.isTick = false)
    (hl : s.lastRequests = s.totalRequests) (ht : s.totalRequests < 2 ^ 64)
    (hm : s.lastMinuteRequests < 2 ^ 64) :
    secondReports (segmentsTrace w) s
      = w.map (fun seg => float64OfUint64 (accepts seg % 2 ^ 64)) ∧
    (run (segmentsTrace w) s).lastRequests = (run (segmentsTrace w) s).totalRequests ∧
    (run (segmentsTrace w) s).totalRequests < 2 ^ 64 ∧
    (run (segmentsTrace w) s).lastMinuteRequests
      = (s.lastMinuteRequests + (w.map accepts).sum) % 2 ^ 64 := by
  induction w generalizing s with
  | nil =>
    refine ⟨rfl, hl, ht, ?_⟩
    show s.lastMinuteRequests = _
    simp only [List.map_nil, List.sum_nil, Nat.add_zero]
    exact (Nat.mod_eq_of_lt hm).symm
  | cons seg w ih =>
    have hseg := hw seg (List.mem_cons_self _ _)
    have hno2 : ∀ st ∈ seg, st ≠ Step.secondTick :=
      fun st hst => Step.ne_secondTick_of_isTick st (hseg st hst)
    have hnom : ∀ st ∈ seg, st ≠ Step.minuteTick :=
      fun st hst => Step.ne_minuteTick_of_isTick st (hseg st hst)
    have h1t := run_totalRequests seg s ht
    have h1l := run_lastRequests seg s hno2
    have h1m := run_lastMinuteRequests seg s hm hnom
    have h2l : (secondTick (run seg s)).lastRequests
        = (secondTick (run seg s)).totalRequests := rfl
    have h2t : (secondTick (run seg s)).totalRequests < 2 ^ 64 := by
      show (run seg s).totalRequests < 2 ^ 64
      rw [h1t]; exact Nat.mod_lt _ (by norm_num)
    have h2m : (secondTick (run seg s)).lastMinuteRequests < 2 ^ 64 := by
      show (run seg s).lastMinuteRequests < 2 ^ 64
      rw [h1m]; exact Nat.mod_lt _ (by norm_num)
    obtain ⟨ihr, ihl, iht, ihm⟩ :=
      ih (secondTick (run seg s)) (fun x hx => hw x (List.mem_cons_of_mem _ hx)) h2l h2t h2m
    have hrun : run (segmentsTrace (seg :: w)) s
        = run (segmentsTrace w) (secondTick (run seg s)) := by
      rw [segmentsTrace, run_append, run_cons]; rfl
    have hdelta : subUint64 (run seg s).totalRequests (run seg s).lastRequests
        = accepts seg % 2 ^ 64 := by
      rw [h1t, h1l, hl]; unfold subUint64; omega
    refine ⟨?_, ?_, ?_, ?_⟩
    · rw [segmentsTrace, secondReports_append, secondReports_eq_nil seg s hno2,
        List.nil_append, secondReports, ihr, List.map_cons]
      congr 1
      show float64OfUint64 (subUint64 (run seg s).totalRequests (run seg s).lastRequests) = _
      rw [hdelta]
    · rw [hrun]; exact ihl
    · rw [hrun]; exact iht
    · rw [hrun, ihm]
      have h3 : (secondTick (run seg s)).lastMinuteRequests
          = (run seg s).lastMinuteRequests := rfl
      rw [h3, h1m, List.map_cons, List.sum_cons]
      omega

theorem sum_float64_counts (w : List (List Step)) (h : (w.map accepts).sum ≤ 2 ^ 53) :
    (w.map (fun seg => float64OfUint64 (accepts seg % 2 ^ 64))).sum = (w.map accepts).sum := by
  induction w with
  | nil => rfl
  | cons seg w ih =>
    rw [List.map_cons, List.sum_cons] at h
    rw [List.map_cons, List.sum_cons, List.map_cons, List.sum_cons, ih (by omega),
      Nat.mod_eq_of_lt (by omega), float64OfUint64_exact _ (by omega)]

theorem minuteTick_requestsPerMinute (s : State) :
    (minuteTick s).requestsPerMinute = float64OfUint64 s.lastMinuteRequests := rfl

theorem run_windowTrace (w : List (List Step)) (s : State) :
    run (windowTrace w) s = minuteTick (run (segmentsTrace w) s) := by
  rw [windowTrace, run_append]; rfl

theorem windowStart_windowTrace (w : List (List Step)) (s : State)
    (hw : ∀ seg ∈ w, ∀ st ∈ seg, st.isTick = false) (hs : WindowStart s) :
    WindowStart (run (windowTrace w) s) := by
  obtain ⟨hl, ht, hm⟩ := hs
  obtain ⟨_, h2, h3, _⟩ := run_segmentsTrace w s hw hl ht (by omega)
  rw [run_windowTrace]
  exact ⟨h2, h3, rfl⟩

theorem windowStart_executionTrace (ws : List (List (List Step))) (s : State)
    (hws : ∀ w ∈ ws, IsWindow w) (hs : WindowStart s) :
    WindowStart (run (executionTrace ws) s) := by
  induction ws generalizing s with
  | nil => exact hs
  | cons w ws ih =>
    rw [executionTrace, run_append]
    exact ih _ (fun x hx => hws x (List.mem_cons_of_mem _ hx))
      (windowStart_windowTrace w s (hws w (List.mem_cons_self _ _)).2 hs)

theorem windowStart_init : WindowStart init := ⟨rfl, by decide, rfl⟩

theorem isWindow_wideWindow : IsWindow wideWindow := by
  refine ⟨by simp only [wideWindow, List.length_append, List.length_cons, List.length_nil,
    List.length_replicate], ?_⟩
  intro seg hseg st hst
  simp only [wideWindow, List.mem_append, List.mem_cons, List.mem_replicate,
    List.mem_singleton, List.not_mem_nil, or_false] at hseg
  rcases hseg with (h | h) | h
  · rw [h] at hst; rw [List.eq_of_mem_replicate hst]; rfl
  · rw [h] at hst; rw [List.mem_singleton.mp hst]; rfl
  · rw [h.2] at hst; exact absurd hst (List.not_mem_nil _)

theorem isWindow_steadyWindow : IsWindow steadyWindow := by
  refine ⟨by simp only [steadyWindow, List.length_replicate], ?_⟩
  intro seg hseg st hst
  rw [List.eq_of_mem_replicate hseg] at hst
  simp only [List.mem_cons, List.mem_singleton, List.not_mem_nil, or_false] at hst
  rcases hst with h | h <;> rw [h] <;> rfl

/-- C4, as stated, fails: in the first window from the zero state, with `2 ^ 53`
accepted requests in the first second and one in the next, the 60 per-second
values add up to `2 ^ 53 + 1` while the MinuteTick reports `2 ^ 53`. -/
theorem wideWindow_rates_differ :
    IsWindow wideWindow ∧
    (secondReports (windowTrace wideWindow) init).length = 60 ∧
    (secondReports (windowTrace wideWindow) init).sum = 2 ^ 53 + 1 ∧
    (run (windowTrace wideWindow) init).requestsPerMinute = 2 ^ 53 ∧
    (secondReports (windowTrace wideWindow) init).sum
      ≠ (run (windowTrace wideWindow) init).requestsPerMinute := by
  obtain ⟨hr, _, _, hm⟩ := run_segmentsTrace wideWindow init isWindow_wideWindow.2 rfl
    (by decide) (by decide)
  have hrep : secondReports (windowTrace wideWindow) init
      = wideWindow.map (fun seg => float64OfUint64 (accepts seg % 2 ^ 64)) := by
    rw [windowTrace, secondReports_append, hr]
    simp [secondReports, run_windowTrace]
  have hone : accepts [Step.accept ⟨"u", 1⟩] = 1 := rfl
  have hcounts : (wideWindow.map accepts).sum = 2 ^ 53 + 1 := by
    simp only [wideWindow, List.map_append, List.map_cons, List.map_nil, List.map_replicate,
      accepts_replicate, hone, accepts_nil, List.sum_append, List.sum_cons, List.sum_nil,
      List.sum_replicate, smul_eq_mul, Nat.mul_zero, Nat.add_zero]
  have e1 : float64OfUint64 (2 ^ 53 % 2 ^ 64) = 2 ^ 53 := by decide
  have e2 : float64OfUint64 (1 % 2 ^ 64) = 1 := by decide
  have e3 : float64OfUint64 (0 % 2 ^ 64) = 0 := by decide
  have e4 : float64OfUint64 ((init.lastMinuteRequests + (2 ^ 53 + 1)) % 2 ^ 64) = 2 ^ 53 := by
    decide
  have hsum : (secondReports (windowTrace wideWindow) init).sum = 2 ^ 53 + 1 := by
    rw [hrep]
    simp only [wideWindow, List.map_append, List.map_cons, List.map_nil, List.map_replicate,
      accepts_replicate, hone, accepts_nil, List.sum_append, List.sum_cons, List.sum_nil,
      List.sum_replicate, smul_eq_mul, e1, e2, e3, Nat.mul_zero, Nat.add_zero]
  have hrpm : (run (windowTrace wideWindow) init).requestsPerMinute = 2 ^ 53 := by
    rw [run_windowTrace, minuteTick_requestsPerMinute, hm, hcounts]
    exact e4
  refine ⟨isWindow_wideWindow, ?_, hsum, hrpm, ?_⟩
  · rw [hrep, List.length_map]; exact isWindow_wideWindow.1
  · rw [hsum, hrpm]; decide

/-- C4, amended: run any number of whole minute windows from the zero state, then
one more window with at most `2 ^ 53` accepted requests. The 60 `requestsPerSecond`
values set by the SecondTicks of that window add up to the `requestsPerMinute` set
by its MinuteTick, both being the number of accepted requests of the window. -/
theorem window_rates_sum (ws : List (List (List Step))) (w : List (List Step))
    (hws : ∀ w0 ∈ ws, IsWindow w0) (hw : IsWindow w)
    (hn : accepts (windowTrace w) ≤ 2 ^ 53) :
    (secondReports (windowTrace w) (run (executionTrace ws) init)).length = 60 ∧
    (secondReports (windowTrace w) (run (executionTrace ws) init)).sum
      = (run (windowTrace w) (run (executionTrace ws) init)).requestsPerMinute ∧
    (run (windowTrace w) (run (executionTrace ws) init)).requestsPerMinute
      = accepts (windowTrace w) := by
  have hs := windowStart_executionTrace ws init hws windowStart_init
  obtain ⟨hl, ht, hm0⟩ := hs
  obtain ⟨hr, _, _, hm⟩ := run_segmentsTrace w (run (executionTrace ws) init) hw.2 hl ht
    (by omega)
  rw [accepts_windowTrace] at hn
  have hrep : secondReports (windowTrace w) (run (executionTrace ws) init)
      = w.map (fun seg => float64OfUint64 (accepts seg % 2 ^ 64)) := by
    rw [windowTrace, secondReports_append, hr]
    simp [secondReports]
  have hrpm : (run (windowTrace w) (run (executionTrace ws) init)).requestsPerMinute
      = (w.map accepts).sum := by
    rw [run_windowTrace, minuteTick_requestsPerMinute, hm, hm0, Nat.zero_add,
      Nat.mod_eq_of_lt (by omega)]
    exact float64OfUint64_exact _ hn
  refine ⟨?_, ?_, ?_⟩
  · rw [hrep, List.length_map]; exact hw.1
  · rw [hrep, hrpm]; exact sum_float64_counts w hn
  · rw [hrpm, accepts_windowTrace]

/-- Instance of the amended C4: after one window of two accepted requests per
second, a second such window reports 120 per minute, the sum of its 60 per-second
values. -/
theorem window_rates_sum_witness :
    IsWindow steadyWindow ∧
    (secondReports (windowTrace steadyWindow)
        (run (executionTrace [steadyWindow]) init)).sum
      = (run (windowTrace steadyWindow)
        (run (executionTrace [steadyWindow]) init)).requestsPerMinute :=
  ⟨isWindow_steadyWindow,
   (window_rates_sum [steadyWindow] steadyWindow
      (by intro w0 h0; rw [List.mem_singleton.mp h0]; exact isWindow_steadyWindow)
      isWindow_steadyWindow
      (by rw [accepts_windowTrace]; decide)).2.1⟩

/-! ## The handler -/

theorem decodeMember_error (lib : JSONLib) (acc : Input × Bool) (m : String × JSON)
    (h : acc.2 = true) : (decodeMember lib acc m).2 = true := by
  unfold decodeMember
  split <;> first | exact h | rfl | (split <;> first | exact h | rfl)

theorem foldl_decodeMember_error (lib : JSONLib) (ms : List (String × JSON))
    (acc : Input × Bool) (h : acc.2 = true) :
    (ms.foldl (decodeMember lib) acc).2 = true := by
  induction ms generalizing acc with
  | nil => exact h
  | cons m ms ih => exact ih _ (decodeMember_error lib acc m h)

theorem foldl_decodeMember_mem (lib : JSONLib) (ms : List (String × JSON))
    (m : String × JSON) (hm : m ∈ ms)
    (hbad : ∀ acc, (decodeMember lib acc m).2 = true) (acc : Input × Bool) :
    (ms.foldl (decodeMember lib) acc).2 = true := by
  induction ms generalizing acc with
  | nil => exact absurd hm (List.not_mem_nil _)
  | cons x ms ih =>
    rcases List.mem_cons.mp hm with h | h
    · subst h
      exact foldl_decodeMember_error lib ms _ (hbad acc)
    · exact ih h _

theorem decodeMember_age_overflow (lib : JSONLib) (acc : Input × Bool) (n : Int)
    (h : ¬ (-(2 ^ 63) ≤ n ∧ n < 2 ^ 63)) :
    (decodeMember lib acc ("age", JSON.int n)).2 = true := by
  unfold decodeMember
  have hf : fieldOf lib "age" = some Field.username ∨ fieldOf lib "age" = some Field.age := by
    unfold fieldOf
    by_cases h1 : "age" = "username" ∨ lib.equalFold "age" "username" = true
    · left; rw [if_pos h1]
    · right; rw [if_neg h1, if_pos (Or.inl rfl)]
  rcases hf with hf | hf
  · simp only [hf]
  · simp only [hf, if_neg h]

/-- C6, as stated, fails in two ways. With `totalRequests` at `2 ^ 64 - 1` an
accepted request wraps the counter to 0 instead of increasing it by 1. And a body
that parses as JSON is not always accepted: the empty JSON array, and an object
whose `age` is `2 ^ 63`, are answered with 400 and leave the counters at 0. -/
theorem handler_claim_fails :
    ((stateOf (2 ^ 64 - 1) 0 0).InRange ∧
      unmarshal sampleLib sampleBody = some ⟨"u", 1⟩ ∧
      (handler sampleLib sampleBody (stateOf (2 ^ 64 - 1) 0 0)).1.totalRequests = 0 ∧
      (handler sampleLib sampleBody (stateOf (2 ^ 64 - 1) 0 0)).1.totalRequests
        ≠ (stateOf (2 ^ 64 - 1) 0 0).totalRequests + 1) ∧
    ((sampleLib.scan arrayBody).isSome = true ∧
      (handler sampleLib arrayBody init).2.status = 400 ∧
      (handler sampleLib arrayBody init).1.totalRequests = 0 ∧
      (handler sampleLib arrayBody init).1.lastMinuteRequests = 0) ∧
    ((sampleLib.scan bigAgeBody).isSome = true ∧
      (handler sampleLib bigAgeBody init).2.status = 400 ∧
      (handler sampleLib bigAgeBody init).1.totalRequests = 0 ∧
      (handler sampleLib bigAgeBody init).1.lastMinuteRequests = 0) := by
  refine ⟨⟨by decide, by decide, by decide, by decide⟩, ⟨by decide, by decide, by decide,
    by decide⟩, ⟨by decide, by decide, by decide, by decide⟩⟩

/-- C6, amended: when `json.Unmarshal` decodes the body into the input struct
without error, the handler adds 1 to `totalRequests` and to `lastMinuteRequests`
modulo `2 ^ 64` (an increase by exactly 1 unless the variable holds `2 ^ 64 - 1`)
and answers with the `Data received` response; when it reports an error the
handler answers 400 `Invalid JSON` and leaves the whole state, the exporter counter
included, unchanged. It reports an error when the body is not JSON, and also for
JSON that does not fit the struct, such as an array or an `age` outside the 64-bit
`int` range. In neither case are `lastRequests`, `requestsPerSecond` or
`requestsPerMinute` changed. -/
theorem handler_counts_iff_accepted (lib : JSONLib) (body : List UInt8) (s : State) :
    (∀ input, unmarshal lib body = some input →
      (handler lib body s).1.totalRequests = (s.totalRequests + 1) % 2 ^ 64 ∧
      (handler lib body s).1.lastMinuteRequests = (s.lastMinuteRequests + 1) % 2 ^ 64 ∧
      (s.totalRequests + 1 < 2 ^ 64 →
        (handler lib body s).1.totalRequests = s.totalRequests + 1) ∧
      (s.lastMinuteRequests + 1 < 2 ^ 64 →
        (handler lib body s).1.lastMinuteRequests = s.lastMinuteRequests + 1) ∧
      (handler lib body s).2 =
        { status := 200,
          body := [("message", JSONValue.str "Data received"),
                   ("user", JSONValue.str input.username),
                   ("age", JSONValue.num input.age)] }) ∧
    (unmarshal lib body = none →
      (handler lib body s).1 = s ∧
      (handler lib body s).2 =
        { status := 400, body := [("error", JSONValue.str "Invalid JSON")] }) ∧
    (lib.scan body = none → unmarshal lib body = none) ∧
    (∀ items, lib.scan body = some (JSON.arr items) → unmarshal lib body = none) ∧
    (∀ members n, lib.scan body = some (JSON.obj members) →
      ("age", JSON.int n) ∈ members → ¬ (-(2 ^ 63) ≤ n ∧ n < 2 ^ 63) →
      unmarshal lib body = none) ∧
    (handler lib body s).1.lastRequests = s.lastRequests ∧
    (handler lib body s).1.requestsPerSecond = s.requestsPerSecond ∧
    (handler lib body s).1.requestsPerMinute = s.requestsPerMinute := by
  refine ⟨?_, ?_, ?_, ?_, ?_, ?_⟩
  · intro input h
    simp only [handler, h, acceptRequest, incCounter, incMinute, incTotal, addUint64]
    refine ⟨trivial, trivial, ?_, ?_, trivial⟩
    · intro hlt; exact Nat.mod_eq_of_lt hlt
    · intro hlt; exact Nat.mod_eq_of_lt hlt
  · intro h
    simp only [handler, h, rejectRequest]
    exact ⟨trivial, trivial⟩
  · intro h
    simp only [unmarshal, h]
  · intro items h
    simp only [unmarshal, h, decodeInput]
  · intro members n h hm hn
    have hbad := foldl_decodeMember_mem lib members ("age", JSON.int n) hm
      (fun acc => decodeMember_age_overflow lib acc n hn) ({ username := "", age := 0 }, false)
    simp only [unmarshal, h, decodeInput, hbad, if_true]
  · cases h : unmarshal lib body <;>
      simp [handler, h, rejectRequest, acceptRequest, incCounter, incMinute, incTotal]

/-- Instance of the amended C6: from the zero state the accepted sample body
yields counters 1 and 1, and the empty body, the empty JSON array and the object
with `age` `2 ^ 63` are rejected with the state unchanged. -/
theorem handler_counts_iff_accepted_witness :
    unmarshal sampleLib sampleBody = some ⟨"u", 1⟩ ∧
    (handler sampleLib sampleBody init).1.totalRequests = 1 ∧
    (handler sampleLib sampleBody init).1.lastMinuteRequests = 1 ∧
    unmarshal sampleLib [] = none ∧
    (handler sampleLib [] init).1 = init ∧
    (handler sampleLib arrayBody init).1 = init ∧
    (handler sampleLib bigAgeBody init).1 = init :=
  have ha := (handler_counts_iff_accepted sampleLib sampleBody init).1 ⟨"u", 1⟩ (by decide)
  have hr := (handler_counts_iff_accepted sampleLib [] init).2.1 (by decide)
  have harr := (handler_counts_iff_accepted sampleLib arrayBody init).2.1
    ((handler_counts_iff_accepted sampleLib arrayBody init).2.2.2.1 [] rfl)
  have hbig := (handler_counts_iff_accepted sampleLib bigAgeBody init).2.1
    ((handler_counts_iff_accepted sampleLib bigAgeBody init).2.2.2.2.1
      [("age", JSON.int (2 ^ 63))] (2 ^ 63) rfl (List.mem_cons_self _ _) (by decide))
  ⟨by decide, ha.2.2.1 (by decide), ha.2.2.2.1 (by decide), by decide, hr.1, harr.1, hbig.1⟩

/-! ## Monotonicity of the total -/

/-- C7: no step decreases `totalRequests`, provided an accepted request does not
take the total to `2 ^ 64`; every step other than an accepted request (a rejected
request, a SecondTick, a MinuteTick, a dashboard refresh) leaves it unchanged. -/
theorem totalRequests_never_decreases (s : State) (st : Step)
    (h : st.isAccept = true → s.totalRequests + 1 < 2 ^ 64) :
    s.totalRequests ≤ (step st s).totalRequests ∧
    (st.isAccept = false → (step st s).totalRequests = s.totalRequests) := by
  cases st
  case accept input =>
    have hlt := h rfl
    have hstep : (step (Step.accept input) s).totalRequests
        = (s.totalRequests + 1) % 2 ^ 64 := rfl
    rw [hstep, Nat.mod_eq_of_lt hlt]
    exact ⟨Nat.le_succ _, fun hf => by simp [Step.isAccept] at hf⟩
  all_goals exact ⟨Nat.le_refl _, fun _ => rfl⟩

/-- Instance of C7: an accepted request and a SecondTick from the zero state. -/
theorem totalRequests_never_decreases_witness :
    init.totalRequests ≤ (step (Step.accept ⟨"u", 1⟩) init).totalRequests ∧
    (step Step.secondTick init).totalRequests = init.totalRequests :=
  ⟨(totalRequests_never_decreases init (Step.accept ⟨"u", 1⟩) (fun _ => by decide)).1,
   (totalRequests_never_decreases init Step.secondTick (fun h => by
      simp [Step.isAccept] at h)).2 rfl⟩

end FiberWebserver
